import Mathlib

/-!
Verification of the slug-generation subsystem of the BCD-scc-admin repository.

The definitions below shallowly embed:
* `generate_unique_slug` and `set_card_slug` from
  `supabase/migrations/20250831154623_billowing_hill.sql`;
* `loadCardData` and `trackCardView` from the public-card component.

Machine text is modelled with Lean `String`/`List Char`; uuids are modelled
as `Nat`; the value produced by `gen_random_uuid()` is passed in explicitly
as the `randToken` parameter (the substring the SQL takes from it).
-/

namespace BCD

/-- ASCII membership test for the regex character class `[a-zA-Z0-9]`
(codes 65-90, 97-122, 48-57). -/
def isSlugAlnum (c : Char) : Bool :=
  (65 ≤ c.toNat && c.toNat ≤ 90) || (97 ≤ c.toNat && c.toNat ≤ 122) ||
    (48 ≤ c.toNat && c.toNat ≤ 57)

/-- PostgreSQL `lower()` restricted to the ASCII range: an upper-case letter
(codes 65-90) is shifted by 32, everything else is unchanged. -/
def lowerChar (c : Char) : Char :=
  if 65 ≤ c.toNat ∧ c.toNat ≤ 90 then Char.ofNat (c.toNat + 32) else c

/-- `regexp_replace(s, '[^a-zA-Z0-9]+', '-', 'g')`: each maximal run of
characters outside the class is replaced by a single hyphen.  The boolean
flag records whether the previous character belonged to such a run. -/
def collapseRuns : Bool → List Char → List Char
  | _, [] => []
  | inRun, c :: rest =>
    if isSlugAlnum c then c :: collapseRuns false rest
    else if inRun then collapseRuns true rest
    else '-' :: collapseRuns true rest

/-- `trim(both '-' from s)` on character lists. -/
def trimHyphens (l : List Char) : List Char :=
  ((l.dropWhile (fun c => c == '-')).reverse.dropWhile (fun c => c == '-')).reverse

/-- `base_slug := trim(both '-' from lower(regexp_replace(input_text,
'[^a-zA-Z0-9]+', '-', 'g')))` -- the normalization step of
`generate_unique_slug`. -/
def normalize (s : String) : String :=
  ⟨trimHyphens ((collapseRuns false s.data).map lowerChar)⟩

/-- The decimal digit character for `d < 10` (codes 48-57). -/
def decDigitChar (d : Nat) : Char := Char.ofNat (48 + d)

/-- Decimal text of a natural number, as produced by the implicit
integer-to-text cast in `base_slug || '-' || counter`. -/
def natToDec (n : Nat) : String :=
  if n = 0 then "0" else ⟨((Nat.digits 10 n).map decDigitChar).reverse⟩

/-- A row of the `business_cards` table as seen by the uniqueness scan:
its owner and its slug. -/
structure Row where
  user_id : Nat
  slug : String
deriving DecidableEq, Repr

/-- `EXISTS (SELECT 1 FROM business_cards WHERE slug = final_slug AND
(user_id_param IS NULL OR user_id != user_id_param))`. -/
def isConflict (rows : List Row) (user_id_param : Option Nat) (s : String) : Bool :=
  rows.any fun r =>
    r.slug == s &&
      (match user_id_param with
       | none => true
       | some u => r.user_id != u)

/-- The `counter`-th candidate of the probe: `base_slug` for `counter = 0`
and `base_slug || '-' || counter` afterwards. -/
def slugCandidate (base : String) (n : Nat) : String :=
  if n = 0 then base else base ++ "-" ++ natToDec n

/-- The `WHILE EXISTS ... LOOP counter := counter + 1; final_slug :=
base_slug || '-' || counter; END LOOP` probe, written with explicit fuel.
`probeTerminates` below shows that fuel `rows.length + 1` always suffices,
so the fueled function computes the same value as the unbounded SQL loop. -/
def probeLoop (conflict : String → Bool) (base : String) : Nat → Nat → Option String
  | _, 0 => none
  | counter, fuel + 1 =>
    if conflict (slugCandidate base counter) then
      probeLoop conflict base (counter + 1) fuel
    else some (slugCandidate base counter)

/-- The base slug: the normalized input, or `'card-' ||
substr(gen_random_uuid()::text, 1, 8)` when normalization is empty. -/
def baseSlug (input_text randToken : String) : String :=
  if normalize input_text = "" then "card-" ++ randToken else normalize input_text

/-- `generate_unique_slug(input_text, table_name, user_id_param)`.  The
`randToken` argument stands for `substr(gen_random_uuid()::text, 1, 8)`. -/
def generate_unique_slug (rows : List Row) (input_text : String)
    (user_id_param : Option Nat) (randToken : String) : String :=
  (probeLoop (isConflict rows user_id_param) (baseSlug input_text randToken) 0
    (rows.length + 1)).getD (baseSlug input_text randToken)

/-- `TG_OP` of the trigger invocation. -/
inductive TriggerOp
  | insert
  | update
deriving DecidableEq, Repr

/-- The `business_cards` row as seen by the trigger (`NEW` / `OLD`):
the fields the trigger reads plus a representative unrelated field. -/
structure CardRec where
  user_id : Nat
  title : Option String
  slug : Option String
  phone : Option String
deriving DecidableEq, Repr

/-- SQL `OLD.slug != NEW.slug`: a comparison against NULL yields NULL,
which plpgsql `IF` treats as false. -/
def sqlTextNe : Option String → Option String → Bool
  | some a, some b => a != b
  | _, _ => false

/-- The trigger function `set_card_slug()`, run `BEFORE INSERT OR UPDATE`.
It returns the row that is actually written. -/
def set_card_slug (op : TriggerOp) (rows : List Row) (old new : CardRec)
    (randToken : String) : CardRec :=
  if new.slug = none ∨ new.slug = some "" then
    { new with slug := some (generate_unique_slug rows (new.title.getD "card")
        (some new.user_id) randToken) }
  else if op = .update then
    if sqlTextNe old.slug new.slug then
      { new with slug := some (generate_unique_slug rows (new.slug.getD "")
          (some new.user_id) randToken) }
    else new
  else
    { new with slug := some (generate_unique_slug rows (new.slug.getD "")
        (some new.user_id) randToken) }

/-- A stored `business_cards` row as read by the public-card component. -/
structure BusinessCard where
  id : Nat
  slug : String
  is_published : Bool
  view_count : Nat
deriving DecidableEq, Repr

/-- The filter `.eq('slug', cardId).eq('is_published', true)`. -/
def publishedMatches (rows : List BusinessCard) (cardId : String) : List BusinessCard :=
  rows.filter fun c => c.slug == cardId && c.is_published

/-- `.single()`: yields a row exactly when the filtered result has one row,
and an error response otherwise. -/
def singleRow {α : Type} : List α → Option α
  | [a] => some a
  | _ => none

/-- `loadCardData`: fetch the card by slug among published rows; on a
query error throw `Card not found or not published`. -/
def loadCardData (rows : List BusinessCard) (cardId : String) :
    Except String BusinessCard :=
  match singleRow (publishedMatches rows cardId) with
  | none => .error "Card not found or not published"
  | some c => .ok c

/-- The result of `.select('id')`: only the `id` column is present, so the
`view_count` property of the returned object is undefined (`none`). -/
structure SelectedCard where
  id : Nat
  view_count : Option Nat
deriving DecidableEq, Repr

/-- Projection performed by `.select('id')`. -/
def selectIdOnly (c : BusinessCard) : SelectedCard :=
  { id := c.id, view_count := none }

/-- JavaScript `x || d` on an optional number: `undefined` and `0` are falsy. -/
def jsOrNum (x : Option Nat) (d : Nat) : Nat :=
  match x with
  | none => d
  | some 0 => d
  | some n => n

/-- `trackCardView`: resolve the card id by slug among published rows with
`.select('id').single()`, then write `(card.view_count || 0) + 1` to the
row's `view_count`.  Returns the written `(id, view_count)` pair, or `none`
when the card did not resolve. -/
def trackCardView (rows : List BusinessCard) (cardId : String) : Option (Nat × Nat) :=
  match singleRow (publishedMatches rows cardId) with
  | none => none
  | some card0 =>
    let card := selectIdOnly card0
    some (card.id, jsOrNum card.view_count 0 + 1)

/-- The specification's notion of a conflicting row, stated in its own
words: a row holding exactly the candidate slug value and owned by a user
other than the excluded owner; every matching row conflicts when no
excluded owner is given. -/
def ConflictingRow (rows : List Row) (excluded_owner : Option Nat) (s : String) : Prop :=
  ∃ r ∈ rows, r.slug = s ∧ ∀ u, excluded_owner = some u → r.user_id ≠ u

/-- No two adjacent hyphens occur in the character list. -/
def noDoubleHyphen (l : List Char) : Prop :=
  List.Chain' (fun a b => ¬(a = '-' ∧ b = '-')) l

/-- Every character is a lower-case letter, a digit or a hyphen. -/
def slugCharsOnly (l : List Char) : Prop :=
  ∀ c ∈ l, (97 ≤ c.toNat ∧ c.toNat ≤ 122) ∨ (48 ≤ c.toNat ∧ c.toNat ≤ 57) ∨ c = '-'

/-- The characters `[0-9a-f]` that the leading positions of the text form
of `gen_random_uuid()` consist of. -/
def isHexLowerChar (c : Char) : Bool :=
  (48 ≤ c.toNat && c.toNat ≤ 57) || (97 ≤ c.toNat && c.toNat ≤ 102)

/-! ## Character-level helper lemmas -/

theorem char_toNat_inj {a b : Char} (h : a.toNat = b.toNat) : a = b := by
  rw [← Char.ofNat_toNat a, ← Char.ofNat_toNat b, h]

theorem char_toNat_ofNat {n : Nat} (h : n < 55296) : (Char.ofNat n).toNat = n := by
  have hv : n.isValidChar := Or.inl h
  rw [Char.ofNat, dif_pos hv]
  rfl

theorem toNat_hyphen : ('-' : Char).toNat = 45 := rfl

theorem isSlugAlnum_iff {c : Char} :
    isSlugAlnum c = true ↔
      (65 ≤ c.toNat ∧ c.toNat ≤ 90) ∨ (97 ≤ c.toNat ∧ c.toNat ≤ 122) ∨
        (48 ≤ c.toNat ∧ c.toNat ≤ 57) := by
  simp [isSlugAlnum, Bool.or_eq_true, Bool.and_eq_true, decide_eq_true_iff, or_assoc]

theorem isSlugAlnum_ne_hyphen {c : Char} (h : isSlugAlnum c = true) : c ≠ '-' := by
  intro hc
  subst hc
  simp [isSlugAlnum] at h

theorem lowerChar_toNat {c : Char} :
    (lowerChar c).toNat =
      if 65 ≤ c.toNat ∧ c.toNat ≤ 90 then c.toNat + 32 else c.toNat := by
  unfold lowerChar
  split
  · next h =>
    rw [char_toNat_ofNat (by omega)]
  · rfl

theorem lowerChar_of_isSlugAlnum {c : Char} (h : isSlugAlnum c = true) :
    (97 ≤ (lowerChar c).toNat ∧ (lowerChar c).toNat ≤ 122) ∨
      (48 ≤ (lowerChar c).toNat ∧ (lowerChar c).toNat ≤ 57) := by
  rcases isSlugAlnum_iff.mp h with h1 | h1 | h1 <;>
    rw [lowerChar_toNat] <;> split <;> omega

theorem lowerChar_ne_hyphen {c : Char} (h : isSlugAlnum c = true) :
    lowerChar c ≠ '-' := by
  intro hc
  have := congrArg Char.toNat hc
  rw [toNat_hyphen] at this
  rcases lowerChar_of_isSlugAlnum h with h1 | h1 <;> omega

theorem lowerChar_eq_hyphen_iff {c : Char} : lowerChar c = '-' ↔ c = '-' := by
  constructor
  · intro h
    unfold lowerChar at h
    split at h
    · next hr =>
      have := congrArg Char.toNat h
      rw [toNat_hyphen, char_toNat_ofNat (by omega)] at this
      omega
    · exact h
  · intro h
    subst h
    rfl

theorem lowerChar_fixed {c : Char}
    (h : (97 ≤ c.toNat ∧ c.toNat ≤ 122) ∨ (48 ≤ c.toNat ∧ c.toNat ≤ 57) ∨ c = '-') :
    lowerChar c = c := by
  unfold lowerChar
  rw [if_neg]
  rcases h with h1 | h1 | h1
  · omega
  · omega
  · subst h1
    rw [toNat_hyphen]
    omega

/-! ## Properties of collapseRuns -/

theorem collapseRuns_chars {b : Bool} {l : List Char} {c : Char}
    (hc : c ∈ collapseRuns b l) : isSlugAlnum c = true ∨ c = '-' := by
  induction l generalizing b with
  | nil => simp [collapseRuns] at hc
  | cons a rest ih =>
    unfold collapseRuns at hc
    by_cases ha : isSlugAlnum a
    · rw [if_pos ha] at hc
      rcases List.mem_cons.mp hc with h | h
      · subst h
        exact Or.inl ha
      · exact ih h
    · rw [if_neg ha] at hc
      cases b with
      | true =>
        rw [if_pos rfl] at hc
        exact ih hc
      | false =>
        rw [if_neg (by simp)] at hc
        rcases List.mem_cons.mp hc with h | h
        · subst h
          exact Or.inr rfl
        · exact ih h

theorem collapseRuns_true_head {l : List Char} {c : Char}
    (h : (collapseRuns true l).head? = some c) : isSlugAlnum c = true := by
  induction l with
  | nil => simp [collapseRuns] at h
  | cons a rest ih =>
    unfold collapseRuns at h
    by_cases ha : isSlugAlnum a
    · rw [if_pos ha] at h
      simp at h
      rw [← h]
      exact ha
    · rw [if_neg ha, if_pos rfl] at h
      exact ih h

theorem collapseRuns_noDoubleHyphen (b : Bool) (l : List Char) :
    noDoubleHyphen (collapseRuns b l) := by
  induction l generalizing b with
  | nil => simp [collapseRuns, noDoubleHyphen]
  | cons a rest ih =>
    unfold collapseRuns
    by_cases ha : isSlugAlnum a
    · rw [if_pos ha]
      refine List.chain'_cons'.mpr ⟨?_, ih false⟩
      intro y _ hy
      exact isSlugAlnum_ne_hyphen ha hy.1
    · rw [if_neg ha]
      cases b with
      | true =>
        rw [if_pos rfl]
        exact ih true
      | false =>
        rw [if_neg (by simp)]
        refine List.chain'_cons'.mpr ⟨?_, ih true⟩
        intro y hy hcontra
        exact isSlugAlnum_ne_hyphen (collapseRuns_true_head hy) hcontra.2

theorem noDoubleHyphen_map_lowerChar {l : List Char} (h : noDoubleHyphen l) :
    noDoubleHyphen (l.map lowerChar) := by
  unfold noDoubleHyphen at *
  rw [List.chain'_map]
  refine h.imp ?_
  intro a b hab hcontra
  exact hab ⟨lowerChar_eq_hyphen_iff.mp hcontra.1, lowerChar_eq_hyphen_iff.mp hcontra.2⟩

/-! ## Properties of trimHyphens -/

theorem trimHyphens_subset (l : List Char) : trimHyphens l ⊆ l := by
  intro c hc
  unfold trimHyphens at hc
  rw [List.mem_reverse] at hc
  have hc2 := (List.dropWhile_sublist _).subset hc
  rw [List.mem_reverse] at hc2
  exact (List.dropWhile_sublist _).subset hc2

theorem noDoubleHyphen_trimHyphens {l : List Char} (h : noDoubleHyphen l) :
    noDoubleHyphen (trimHyphens l) := by
  unfold noDoubleHyphen trimHyphens at *
  have h1 := h.suffix (List.dropWhile_suffix (fun c => c == '-'))
  have h2 := List.chain'_reverse.mpr h1
  have h3 := h2.suffix (List.dropWhile_suffix (fun c => c == '-'))
  exact List.chain'_reverse.mpr h3

theorem head?_dropWhile_not {p : Char → Bool} :
    ∀ {l : List Char} {c : Char}, (l.dropWhile p).head? = some c → p c = false := by
  intro l
  induction l with
  | nil => intro c h; simp [List.dropWhile] at h
  | cons a rest ih =>
    intro c h
    rw [List.dropWhile_cons] at h
    by_cases ha : p a = true
    · rw [if_pos ha] at h
      exact ih h
    · rw [if_neg ha] at h
      simp at h
      rw [← h]
      exact Bool.eq_false_iff.mpr ha

theorem getLast?_trimHyphens_not {l : List Char} {c : Char}
    (h : (trimHyphens l).getLast? = some c) : (c == '-') = false := by
  unfold trimHyphens at h
  rw [List.getLast?_reverse] at h
  exact head?_dropWhile_not (p := fun c => c == '-') h

theorem head?_trimHyphens_not {l : List Char} {c : Char}
    (h : (trimHyphens l).head? = some c) : (c == '-') = false := by
  unfold trimHyphens at h
  rw [List.head?_reverse] at h
  obtain ⟨w, hw⟩ :=
    List.dropWhile_suffix (l := (l.dropWhile (fun c => c == '-')).reverse)
      (fun c => c == '-')
  have hnil :
      ((l.dropWhile (fun c => c == '-')).reverse.dropWhile (fun c => c == '-')) ≠ [] := by
    intro hn
    rw [hn] at h
    simp at h
  have h2 : (l.dropWhile (fun c => c == '-')).reverse.getLast? = some c := by
    rw [← hw, List.getLast?_append_of_ne_nil _ hnil]
    exact h
  rw [List.getLast?_reverse] at h2
  exact head?_dropWhile_not (p := fun c => c == '-') h2

/-! ## The normalized string: characterization and fixpoints -/

theorem normalize_data (s : String) :
    (normalize s).data = trimHyphens ((collapseRuns false s.data).map lowerChar) := rfl

theorem normalize_chars (s : String) : slugCharsOnly (normalize s).data := by
  intro c hc
  rw [normalize_data] at hc
  have hc2 := trimHyphens_subset _ hc
  obtain ⟨a, ha, rfl⟩ := List.mem_map.mp hc2
  rcases collapseRuns_chars ha with h | h
  · rcases lowerChar_of_isSlugAlnum h with h1 | h1
    · exact Or.inl h1
    · exact Or.inr (Or.inl h1)
  · subst h
    exact Or.inr (Or.inr (lowerChar_eq_hyphen_iff.mpr rfl))

theorem normalize_noDoubleHyphen (s : String) : noDoubleHyphen (normalize s).data := by
  rw [normalize_data]
  exact noDoubleHyphen_trimHyphens
    (noDoubleHyphen_map_lowerChar (collapseRuns_noDoubleHyphen false _))

theorem normalize_head (s : String) :
    ∀ c, (normalize s).data.head? = some c → c ≠ '-' := by
  intro c hc hcontra
  rw [normalize_data] at hc
  have := head?_trimHyphens_not hc
  subst hcontra
  simp at this

theorem normalize_last (s : String) :
    ∀ c, (normalize s).data.getLast? = some c → c ≠ '-' := by
  intro c hc hcontra
  rw [normalize_data] at hc
  have := getLast?_trimHyphens_not hc
  subst hcontra
  simp at this

theorem collapseRuns_fixed :
    ∀ l : List Char, slugCharsOnly l → noDoubleHyphen l →
      collapseRuns false l = l ∧
        ((∀ c, l.head? = some c → c ≠ '-') → collapseRuns true l = l) := by
  intro l
  induction l with
  | nil => exact fun _ _ => ⟨rfl, fun _ => rfl⟩
  | cons a rest ih =>
    intro hchars hnoDH
    have hrest_chars : slugCharsOnly rest :=
      fun c hc => hchars c (List.mem_cons_of_mem _ hc)
    have hrest_noDH : noDoubleHyphen rest := hnoDH.tail
    have hcase : isSlugAlnum a = true ∨ a = '-' := by
      rcases hchars a (List.mem_cons_self a rest) with h | h | h
      · exact Or.inl (isSlugAlnum_iff.mpr (Or.inr (Or.inl h)))
      · exact Or.inl (isSlugAlnum_iff.mpr (Or.inr (Or.inr h)))
      · exact Or.inr h
    rcases hcase with ha | ha
    · constructor
      · unfold collapseRuns
        rw [if_pos ha, (ih hrest_chars hrest_noDH).1]
      · intro _
        unfold collapseRuns
        rw [if_pos ha, (ih hrest_chars hrest_noDH).1]
    · subst ha
      have hhead : ∀ c, rest.head? = some c → c ≠ '-' := by
        intro c hc hcontra
        have hpair := (List.chain'_cons'.mp hnoDH).1 c (by simp [hc])
        exact hpair ⟨rfl, hcontra⟩
      constructor
      · unfold collapseRuns
        rw [if_neg (by decide : ¬ isSlugAlnum '-' = true), if_neg (by simp),
          (ih hrest_chars hrest_noDH).2 hhead]
      · intro hh
        exact absurd rfl (hh '-' rfl)

theorem map_lowerChar_fixed {l : List Char} (h : slugCharsOnly l) :
    l.map lowerChar = l := by
  rw [List.map_congr_left (fun a ha => lowerChar_fixed (h a ha)), List.map_id']

theorem dropWhile_eq_self_of_head {l : List Char}
    (h : ∀ c, l.head? = some c → c ≠ '-') :
    l.dropWhile (fun c => c == '-') = l := by
  cases l with
  | nil => rfl
  | cons a rest =>
    have := h a rfl
    rw [List.dropWhile_cons, if_neg (by simpa using this)]

theorem trimHyphens_fixed {l : List Char}
    (hh : ∀ c, l.head? = some c → c ≠ '-')
    (hl : ∀ c, l.getLast? = some c → c ≠ '-') : trimHyphens l = l := by
  unfold trimHyphens
  rw [dropWhile_eq_self_of_head hh]
  rw [dropWhile_eq_self_of_head (l := l.reverse) ?_]
  · exact List.reverse_reverse l
  · intro c hc
    rw [List.head?_reverse] at hc
    exact hl c hc

/-! ## Decimal text and candidate injectivity -/

theorem toNat_decDigitChar {d : Nat} (h : d < 10) : (decDigitChar d).toNat = 48 + d := by
  unfold decDigitChar
  exact char_toNat_ofNat (by omega)

theorem natToDec_data_pos {n : Nat} (h : n ≠ 0) :
    (natToDec n).data = ((Nat.digits 10 n).map decDigitChar).reverse := by
  unfold natToDec
  rw [if_neg h]

theorem natToDec_ne_empty {n : Nat} (h : n ≠ 0) : (natToDec n).data ≠ [] := by
  rw [natToDec_data_pos h]
  intro hc
  simp at hc
  exact Nat.digits_ne_nil_iff_ne_zero.mpr h hc

theorem natToDec_injOn {a b : Nat} (ha : a ≠ 0) (hb : b ≠ 0)
    (h : natToDec a = natToDec b) : a = b := by
  have hd : ((Nat.digits 10 a).map decDigitChar).reverse =
      ((Nat.digits 10 b).map decDigitChar).reverse := by
    rw [← natToDec_data_pos ha, ← natToDec_data_pos hb, h]
  have hm := List.reverse_injective hd
  have key : ∀ m : Nat,
      ((Nat.digits 10 m).map decDigitChar).map (fun c => c.toNat - 48) =
        Nat.digits 10 m := by
    intro m
    rw [List.map_map]
    have heq : ∀ d ∈ Nat.digits 10 m,
        ((fun c : Char => c.toNat - 48) ∘ decDigitChar) d = d := by
      intro d hd2
      have hlt := Nat.digits_lt_base (by norm_num) hd2
      simp [Function.comp, toNat_decDigitChar hlt]
    rw [List.map_congr_left heq, List.map_id']
  have hdig : Nat.digits 10 a = Nat.digits 10 b := by
    rw [← key a, ← key b, hm]
  exact Nat.digits_inj_iff.mp hdig

theorem slugCandidate_injective (base : String) :
    Function.Injective (slugCandidate base) := by
  intro i j h
  unfold slugCandidate at h
  have hlen1 : ∀ n : Nat, n ≠ 0 → 0 < (natToDec n).length := by
    intro n hn
    have h1 := natToDec_ne_empty hn
    have h2 : (natToDec n).data.length ≠ 0 := fun hc => h1 (List.length_eq_zero.mp hc)
    show 0 < (natToDec n).data.length
    omega
  by_cases hi : i = 0 <;> by_cases hj : j = 0
  · rw [hi, hj]
  · exfalso
    rw [if_pos hi, if_neg hj] at h
    have hlen := congrArg String.length h
    rw [String.length_append, String.length_append] at hlen
    have := hlen1 j hj
    have hone : ("-" : String).length = 1 := rfl
    omega
  · exfalso
    rw [if_neg hi, if_pos hj] at h
    have hlen := congrArg String.length h
    rw [String.length_append, String.length_append] at hlen
    have := hlen1 i hi
    have hone : ("-" : String).length = 1 := rfl
    omega
  · rw [if_neg hi, if_neg hj] at h
    have hd := congrArg String.data h
    rw [String.data_append, String.data_append, String.data_append,
      String.data_append, List.append_assoc, List.append_assoc] at hd
    have h2 := List.append_cancel_left hd
    have h3 := List.append_cancel_left h2
    exact natToDec_injOn hi hj (String.ext h3)

/-! ## The probe loop -/

theorem probeLoop_none {conflict : String → Bool} {base : String} :
    ∀ {fuel counter : Nat}, probeLoop conflict base counter fuel = none →
      ∀ i < fuel, conflict (slugCandidate base (counter + i)) = true := by
  intro fuel
  induction fuel with
  | zero =>
    intro counter _ i hi
    omega
  | succ fuel ih =>
    intro counter h i hi
    unfold probeLoop at h
    by_cases hc : conflict (slugCandidate base counter) = true
    · rw [if_pos hc] at h
      cases i with
      | zero =>
        rw [Nat.add_zero]
        exact hc
      | succ i' =>
        have hstep := ih h i' (by omega)
        rw [show counter + (i' + 1) = counter + 1 + i' by omega]
        exact hstep
    · rw [if_neg hc] at h
      simp at h

theorem probeLoop_some {conflict : String → Bool} {base : String} :
    ∀ {fuel counter : Nat} {s : String}, probeLoop conflict base counter fuel = some s →
      ∃ i < fuel, s = slugCandidate base (counter + i) ∧
        conflict (slugCandidate base (counter + i)) = false ∧
        ∀ j < i, conflict (slugCandidate base (counter + j)) = true := by
  intro fuel
  induction fuel with
  | zero =>
    intro counter s h
    simp [probeLoop] at h
  | succ fuel ih =>
    intro counter s h
    unfold probeLoop at h
    by_cases hc : conflict (slugCandidate base counter) = true
    · rw [if_pos hc] at h
      obtain ⟨i, hi, hcand, hfree, hconf⟩ := ih h
      refine ⟨i + 1, by omega, ?_, ?_, ?_⟩
      · rw [show counter + (i + 1) = counter + 1 + i by omega]
        exact hcand
      · rw [show counter + (i + 1) = counter + 1 + i by omega]
        exact hfree
      · intro j hj
        cases j with
        | zero =>
          rw [Nat.add_zero]
          exact hc
        | succ j' =>
          rw [show counter + (j' + 1) = counter + 1 + j' by omega]
          exact hconf j' (by omega)
    · rw [if_neg hc] at h
      refine ⟨0, by omega, ?_, ?_, ?_⟩
      · rw [Nat.add_zero]
        simp at h
        rw [h]
      · rw [Nat.add_zero]
        exact Bool.eq_false_iff.mpr hc
      · intro j hj
        omega

theorem isConflict_mem_slugs {rows : List Row} {excl : Option Nat} {s : String}
    (h : isConflict rows excl s = true) : s ∈ rows.map Row.slug := by
  unfold isConflict at h
  rw [List.any_eq_true] at h
  obtain ⟨r, hr, hp⟩ := h
  rw [Bool.and_eq_true] at hp
  have hs : r.slug = s := eq_of_beq hp.1
  exact List.mem_map.mpr ⟨r, hr, hs⟩

theorem probeLoop_isSome (rows : List Row) (excl : Option Nat) (base : String) :
    (probeLoop (isConflict rows excl) base 0 (rows.length + 1)).isSome = true := by
  rw [Option.isSome_iff_exists]
  by_contra hne
  push_neg at hne
  have hnone : probeLoop (isConflict rows excl) base 0 (rows.length + 1) = none := by
    cases hopt : probeLoop (isConflict rows excl) base 0 (rows.length + 1) with
    | none => rfl
    | some s => exact absurd hopt (hne s)
  have hall := probeLoop_none hnone
  have hsub : (List.range (rows.length + 1)).map (slugCandidate base) ⊆
      rows.map Row.slug := by
    intro s hs
    obtain ⟨i, hi, rfl⟩ := List.mem_map.mp hs
    rw [List.mem_range] at hi
    have hc := hall i hi
    rw [Nat.zero_add] at hc
    exact isConflict_mem_slugs hc
  have hnd := (List.nodup_range (rows.length + 1)).map (slugCandidate_injective base)
  have hle := (List.subperm_of_subset hnd hsub).length_le
  simp at hle

/-- C8: normalization (lower-case, collapse each maximal non-alphanumeric
run to one hyphen, strip leading/trailing hyphens) is idempotent: applying
`normalize` to an already-normalized string returns it unchanged. -/
theorem normalize_idempotent (s : String) : normalize (normalize s) = normalize s := by
  apply String.ext
  rw [normalize_data (normalize s)]
  rw [(collapseRuns_fixed _ (normalize_chars s) (normalize_noDoubleHyphen s)).1]
  rw [map_lowerChar_fixed (normalize_chars s)]
  exact trimHyphens_fixed (normalize_head s) (normalize_last s)

/-! ## The executable conflict test agrees with the specification's wording -/

theorem isConflict_iff {rows : List Row} {excl : Option Nat} {s : String} :
    isConflict rows excl s = true ↔ ConflictingRow rows excl s := by
  unfold isConflict ConflictingRow
  rw [List.any_eq_true]
  constructor
  · rintro ⟨r, hr, hp⟩
    rw [Bool.and_eq_true] at hp
    refine ⟨r, hr, eq_of_beq hp.1, ?_⟩
    intro u hu
    subst hu
    simpa using hp.2
  · rintro ⟨r, hr, hs, hu⟩
    refine ⟨r, hr, ?_⟩
    rw [Bool.and_eq_true]
    refine ⟨beq_iff_eq.mpr hs, ?_⟩
    cases excl with
    | none => rfl
    | some u => simpa using hu u rfl

/-- C7: on every seed text and finite snapshot the generator's linear probe
terminates: a free candidate is found within `rows.length + 1` probes (the
candidates are pairwise distinct and only `rows.length` slugs exist), and
that free candidate is exactly the value `generate_unique_slug` returns. -/
theorem probe_terminates (rows : List Row) (input_text : String)
    (excl : Option Nat) (tok : String) :
    ∃ s, probeLoop (isConflict rows excl) (baseSlug input_text tok) 0
        (rows.length + 1) = some s ∧
      generate_unique_slug rows input_text excl tok = s ∧
      isConflict rows excl s = false := by
  obtain ⟨s, hs⟩ := Option.isSome_iff_exists.mp
    (probeLoop_isSome rows excl (baseSlug input_text tok))
  refine ⟨s, hs, ?_, ?_⟩
  · unfold generate_unique_slug
    rw [hs, Option.getD_some]
  · obtain ⟨i, _, hcand, hfree, _⟩ := probeLoop_some hs
    rw [hcand]
    exact hfree

/-- C1: whenever normalization of the seed is non-empty, the generator
returns the first candidate of the sequence base, base-1, base-2, ... for
which no conflicting row (in the specification's sense) exists in the
snapshot. -/
theorem generate_unique_slug_first_free (rows : List Row) (input_text : String)
    (excl : Option Nat) (tok : String) (h : normalize input_text ≠ "") :
    ∃ n, generate_unique_slug rows input_text excl tok =
        slugCandidate (normalize input_text) n ∧
      ¬ ConflictingRow rows excl (slugCandidate (normalize input_text) n) ∧
      ∀ m < n, ConflictingRow rows excl (slugCandidate (normalize input_text) m) := by
  have hbase : baseSlug input_text tok = normalize input_text := by
    unfold baseSlug
    rw [if_neg h]
  obtain ⟨s, hs⟩ := Option.isSome_iff_exists.mp
    (probeLoop_isSome rows excl (baseSlug input_text tok))
  obtain ⟨i, _, hcand, hfree, hconf⟩ := probeLoop_some hs
  simp only [hbase, Nat.zero_add] at hcand hfree hconf
  refine ⟨i, ?_, ?_, ?_⟩
  · unfold generate_unique_slug
    rw [hs, Option.getD_some]
    exact hcand
  · intro hc
    rw [← isConflict_iff, hfree] at hc
    exact absurd hc (by decide)
  · intro m hm
    exact isConflict_iff.mp (hconf m hm)

theorem generate_unique_slug_first_free_witness :
    normalize "hello" ≠ "" ∧
      ∃ n, generate_unique_slug [] "hello" none "x" =
          slugCandidate (normalize "hello") n ∧
        ¬ ConflictingRow [] none (slugCandidate (normalize "hello") n) ∧
        ∀ m < n, ConflictingRow [] none (slugCandidate (normalize "hello") m) :=
  ⟨by decide, generate_unique_slug_first_free [] "hello" none "x" (by decide)⟩

/-! ## Concrete runs of the generator -/

theorem natToDec_one : natToDec 1 = "1" := by
  unfold natToDec
  norm_num
  decide

/-- Shared computation: with one existing row slugged `card-1` and seed
`card-1`, the probe rejects `card-1` and accepts `card-1-1`. -/
theorem gen_card1_run (u : Nat) (tok : String) :
    generate_unique_slug [⟨u, "card-1"⟩] "card-1" none tok = "card-1-1" := by
  have hnorm : normalize "card-1" = "card-1" := by decide
  have hbase : baseSlug "card-1" tok = "card-1" := by
    unfold baseSlug
    rw [hnorm, if_neg (by decide)]
  have hc0 : isConflict [⟨u, "card-1"⟩] none "card-1" = true := by
    simp [isConflict]
  have hc1 : isConflict [⟨u, "card-1"⟩] none "card-1-1" = false := by
    simp [isConflict]
  have hcand0 : slugCandidate "card-1" 0 = "card-1" := rfl
  have hcand1 : slugCandidate "card-1" 1 = "card-1-1" := by
    unfold slugCandidate
    rw [if_neg one_ne_zero, natToDec_one]
    decide
  unfold generate_unique_slug
  rw [hbase]
  show (probeLoop (isConflict [⟨u, "card-1"⟩] none) "card-1" 0 (0 + 1 + 1)).getD
      "card-1" = "card-1-1"
  rw [probeLoop, hcand0, if_pos hc0, probeLoop, hcand1,
    if_neg (by simp [hc1]), Option.getD_some]

/-- C2 counterexample: with an existing row slugged `card-1` and a new
insert whose seed normalizes to `card-1` (no owner excluded), the generator
does not return `card-2`. -/
theorem gen_card2_counterexample :
    generate_unique_slug [⟨7, "card-1"⟩] "card-1" none "deadbeef" ≠ "card-2" := by
  rw [gen_card1_run 7 "deadbeef"]
  decide

/-- C2 amended: with an existing row slugged `card-1` and a new insert
whose seed normalizes to `card-1` (no owner excluded), the generator
returns `card-1-1`: the counter suffix is appended to the whole normalized
base, so the trailing `-1` of the base is not incremented. -/
theorem gen_card2_amended (u : Nat) (tok : String) :
    generate_unique_slug [⟨u, "card-1"⟩] "card-1" none tok = "card-1-1" :=
  gen_card1_run u tok

/-- C5: if user U's row holds slug `alice`, the generator run for a
different user V with seed `alice` (excluding owner V) sees U's row as a
conflict and yields `alice-1`. -/
theorem gen_alice_scoped (U V : Nat) (tok : String) (hUV : U ≠ V) :
    generate_unique_slug [⟨U, "alice"⟩] "alice" (some V) tok = "alice-1" := by
  have hnorm : normalize "alice" = "alice" := by decide
  have hbase : baseSlug "alice" tok = "alice" := by
    unfold baseSlug
    rw [hnorm, if_neg (by decide)]
  have hc0 : isConflict [⟨U, "alice"⟩] (some V) "alice" = true := by
    simp [isConflict, bne_iff_ne, hUV]
  have hc1 : isConflict [⟨U, "alice"⟩] (some V) "alice-1" = false := by
    simp [isConflict]
  have hcand1 : slugCandidate "alice" 1 = "alice-1" := by
    unfold slugCandidate
    rw [if_neg one_ne_zero, natToDec_one]
    decide
  unfold generate_unique_slug
  rw [hbase]
  show (probeLoop (isConflict [⟨U, "alice"⟩] (some V)) "alice" 0 (0 + 1 + 1)).getD
      "alice" = "alice-1"
  rw [probeLoop, show slugCandidate "alice" 0 = "alice" from rfl, if_pos hc0,
    probeLoop, hcand1, if_neg (by simp [hc1]), Option.getD_some]

theorem gen_alice_scoped_witness :
    (0 : Nat) ≠ 1 ∧
      generate_unique_slug [⟨0, "alice"⟩] "alice" (some 1) "x" = "alice-1" :=
  ⟨by decide, gen_alice_scoped 0 1 "x" (by decide)⟩

/-! ## The assignment trigger -/

/-- Shared helper: on UPDATE with an unchanged non-empty slug the trigger
returns `NEW` verbatim. -/
theorem set_card_slug_update_same (rows : List Row) (old new : CardRec)
    (tok : String) (s : String) (hs : new.slug = some s) (hne : s ≠ "")
    (heq : old.slug = new.slug) :
    set_card_slug .update rows old new tok = new := by
  have h1 : ¬(new.slug = none ∨ new.slug = some "") := by
    rintro (h | h) <;> rw [hs] at h
    · cases h
    · injection h with h
      exact hne h
  have h2 : sqlTextNe old.slug new.slug = false := by
    rw [heq, hs]
    simp [sqlTextNe]
  unfold set_card_slug
  rw [if_neg h1, if_pos rfl, if_neg (by simp [h2])]

/-- C4: an UPDATE whose new slug equals the stored slug (a non-empty value,
as every stored slug is) leaves the row untouched: the trigger performs no
recomputation and appends no suffix. -/
theorem update_same_slug_unchanged (rows : List Row) (old new : CardRec)
    (tok : String) (s : String) (hs : new.slug = some s) (hne : s ≠ "")
    (heq : old.slug = new.slug) :
    set_card_slug .update rows old new tok = new :=
  set_card_slug_update_same rows old new tok s hs hne heq

theorem update_same_slug_unchanged_witness :
    (⟨0, none, some "alice", none⟩ : CardRec).slug = some "alice" ∧
      "alice" ≠ "" ∧
      (⟨0, none, some "alice", some "111"⟩ : CardRec).slug =
        (⟨0, none, some "alice", none⟩ : CardRec).slug ∧
      set_card_slug .update [] ⟨0, none, some "alice", some "111"⟩
        ⟨0, none, some "alice", none⟩ "x" = ⟨0, none, some "alice", none⟩ :=
  ⟨rfl, by decide, rfl,
    update_same_slug_unchanged [] ⟨0, none, some "alice", some "111"⟩
      ⟨0, none, some "alice", none⟩ "x" "alice" rfl (by decide) rfl⟩

/-- C6: an UPDATE whose new slug equals the stored (non-empty) slug keeps
the slug even when other rows in the snapshot hold colliding slugs, and on
every insert or update the trigger modifies no field of the row other than
`slug`. -/
theorem trigger_frame (rows : List Row) (old new : CardRec) (tok : String)
    (s : String) (hs : new.slug = some s) (hne : s ≠ "")
    (heq : old.slug = new.slug) :
    (set_card_slug .update rows old new tok).slug = new.slug ∧
      ∀ (op : TriggerOp) (rows2 : List Row) (old2 new2 : CardRec) (tok2 : String),
        (set_card_slug op rows2 old2 new2 tok2).user_id = new2.user_id ∧
        (set_card_slug op rows2 old2 new2 tok2).title = new2.title ∧
        (set_card_slug op rows2 old2 new2 tok2).phone = new2.phone := by
  constructor
  · rw [set_card_slug_update_same rows old new tok s hs hne heq]
  · intro op2 rows2 old2 new2 tok2
    unfold set_card_slug
    split
    · exact ⟨rfl, rfl, rfl⟩
    · split
      · split
        · exact ⟨rfl, rfl, rfl⟩
        · exact ⟨rfl, rfl, rfl⟩
      · exact ⟨rfl, rfl, rfl⟩

theorem trigger_frame_witness :
    (⟨0, none, some "alice", none⟩ : CardRec).slug = some "alice" ∧
      "alice" ≠ "" ∧
      ((set_card_slug .update [⟨1, "alice"⟩] ⟨0, none, some "alice", none⟩
          ⟨0, none, some "alice", none⟩ "x").slug =
        (⟨0, none, some "alice", none⟩ : CardRec).slug ∧
      ∀ (op : TriggerOp) (rows2 : List Row) (old2 new2 : CardRec) (tok2 : String),
        (set_card_slug op rows2 old2 new2 tok2).user_id = new2.user_id ∧
        (set_card_slug op rows2 old2 new2 tok2).title = new2.title ∧
        (set_card_slug op rows2 old2 new2 tok2).phone = new2.phone) :=
  ⟨rfl, by decide,
    trigger_frame [⟨1, "alice"⟩] ⟨0, none, some "alice", none⟩
      ⟨0, none, some "alice", none⟩ "x" "alice" rfl (by decide) rfl⟩

/-! ## The public-card reader -/

/-- C9: the public read resolves a card only among published rows: when no
published row holds the requested slug the load fails with the not-found
error, and a uniquely matching published row is returned as the card. -/
theorem loadCardData_spec (rows : List BusinessCard) (cardId : String) :
    ((∀ c ∈ rows, ¬(c.slug = cardId ∧ c.is_published = true)) →
        loadCardData rows cardId = .error "Card not found or not published") ∧
      ∀ c, publishedMatches rows cardId = [c] → loadCardData rows cardId = .ok c := by
  constructor
  · intro h
    have hfil : publishedMatches rows cardId = [] := by
      rw [publishedMatches, List.filter_eq_nil_iff]
      intro c hc hp
      rw [Bool.and_eq_true] at hp
      exact h c hc ⟨eq_of_beq hp.1, hp.2⟩
    unfold loadCardData
    rw [hfil]
    rfl
  · intro c hc
    unfold loadCardData
    rw [hc]
    rfl

theorem loadCardData_spec_witness :
    loadCardData [] "a" = .error "Card not found or not published" ∧
      loadCardData [⟨1, "a", true, 0⟩] "a" = .ok ⟨1, "a", true, 0⟩ :=
  ⟨(loadCardData_spec [] "a").1 (by simp),
    (loadCardData_spec [⟨1, "a", true, 0⟩] "a").2 ⟨1, "a", true, 0⟩ (by decide)⟩

/-- C10: whenever `trackCardView` resolves a published card, the value it
writes to `view_count` is exactly 1, whatever count was stored before: the
preceding query selects only `id`, so `(card.view_count || 0) + 1`
evaluates to 1. -/
theorem trackCardView_writes_one (rows : List BusinessCard) (cardId : String)
    (p : Nat × Nat) (h : trackCardView rows cardId = some p) : p.2 = 1 := by
  unfold trackCardView at h
  cases hm : singleRow (publishedMatches rows cardId) with
  | none =>
    rw [hm] at h
    cases h
  | some card0 =>
    rw [hm] at h
    injection h with h2
    rw [← h2]
    rfl

theorem trackCardView_writes_one_witness :
    trackCardView [⟨1, "a", true, 41⟩] "a" = some (1, 1) ∧
      ((1, 1) : Nat × Nat).2 = 1 :=
  ⟨by decide, trackCardView_writes_one [⟨1, "a", true, 41⟩] "a" (1, 1) (by decide)⟩

/-! ## The random fallback base -/

theorem collapseRuns_true_nil {l : List Char}
    (h : ∀ c ∈ l, isSlugAlnum c = false) : collapseRuns true l = [] := by
  induction l with
  | nil => rfl
  | cons a rest ih =>
    unfold collapseRuns
    rw [if_neg (by simp [h a (List.mem_cons_self a rest)]), if_pos rfl]
    exact ih fun c hc => h c (List.mem_cons_of_mem _ hc)

theorem normalize_empty {s : String} (h : ∀ c ∈ s.data, isSlugAlnum c = false) :
    normalize s = "" := by
  apply String.ext
  rw [normalize_data]
  cases hd : s.data with
  | nil => rfl
  | cons a rest =>
    rw [hd] at h
    unfold collapseRuns
    rw [if_neg (by simp [h a (List.mem_cons_self a rest)]), if_neg (by simp),
      collapseRuns_true_nil fun c hc => h c (List.mem_cons_of_mem _ hc)]
    decide

theorem natToDec_chars (n : Nat) :
    ∀ c ∈ (natToDec n).data, 48 ≤ c.toNat ∧ c.toNat ≤ 57 := by
  intro c hc
  unfold natToDec at hc
  by_cases hn : n = 0
  · rw [if_pos hn] at hc
    have hcc : c = '0' := by simpa using hc
    rw [hcc]
    decide
  · rw [if_neg hn] at hc
    rw [show (String.mk (((Nat.digits 10 n).map decDigitChar).reverse)).data =
      ((Nat.digits 10 n).map decDigitChar).reverse from rfl, List.mem_reverse] at hc
    obtain ⟨d, hd, rfl⟩ := List.mem_map.mp hc
    have hlt := Nat.digits_lt_base (by norm_num) hd
    rw [toNat_decDigitChar hlt]
    omega

theorem hex_is_slugChar {c : Char} (h : isHexLowerChar c = true) :
    (97 ≤ c.toNat ∧ c.toNat ≤ 122) ∨ (48 ≤ c.toNat ∧ c.toNat ≤ 57) ∨ c = '-' := by
  unfold isHexLowerChar at h
  rw [Bool.or_eq_true, Bool.and_eq_true, Bool.and_eq_true] at h
  rcases h with ⟨h1, h2⟩ | ⟨h1, h2⟩
  · rw [decide_eq_true_iff] at h1 h2
    exact Or.inr (Or.inl ⟨h1, h2⟩)
  · rw [decide_eq_true_iff] at h1 h2
    exact Or.inl ⟨h1, by omega⟩

theorem hex_ne_hyphen {c : Char} (h : isHexLowerChar c = true) : c ≠ '-' := by
  intro hc
  rw [hc] at h
  simp [isHexLowerChar] at h

theorem slugCandidate_chars {base : String} {n : Nat}
    (hb : slugCharsOnly base.data) : slugCharsOnly (slugCandidate base n).data := by
  unfold slugCandidate
  split
  · exact hb
  · intro c hc
    rw [String.data_append, String.data_append] at hc
    rcases List.mem_append.mp hc with hc2 | hc2
    · rcases List.mem_append.mp hc2 with hc3 | hc3
      · exact hb c hc3
      · have hcc : c = '-' := by simpa using hc3
        exact Or.inr (Or.inr hcc)
    · have := natToDec_chars n c hc2
      exact Or.inr (Or.inl this)

theorem slugCandidate_data_ne_nil {base : String} {n : Nat}
    (hb : base.data ≠ []) : (slugCandidate base n).data ≠ [] := by
  unfold slugCandidate
  split
  · exact hb
  · rw [String.data_append, String.data_append]
    simp [hb]

theorem slugCandidate_head_eq {base : String} {n : Nat}
    (hb : base.data ≠ []) :
    (slugCandidate base n).data.head? = base.data.head? := by
  unfold slugCandidate
  split
  · rfl
  · rw [String.data_append, String.data_append, List.append_assoc]
    cases hd : base.data with
    | nil => exact absurd hd hb
    | cons a l => rfl

theorem slugCandidate_last_not_hyphen {base : String} {n : Nat} {c : Char}
    (hb : ∀ c, base.data.getLast? = some c → c ≠ '-')
    (h : (slugCandidate base n).data.getLast? = some c) : c ≠ '-' := by
  unfold slugCandidate at h
  split at h
  · exact hb c h
  · next hn =>
    rw [String.data_append, List.getLast?_append_of_ne_nil _ (natToDec_ne_empty hn)] at h
    have hmem := List.mem_of_getLast?_eq_some h
    have hlt := natToDec_chars n c hmem
    intro hcc
    rw [hcc, toNat_hyphen] at hlt
    omega

/-- Supporting invariant: the generator never returns the empty string, so
every slug the trigger stores is non-empty. -/
theorem generate_unique_slug_ne_empty (rows : List Row) (input tok : String)
    (excl : Option Nat) : generate_unique_slug rows input excl tok ≠ "" := by
  have hbne : (baseSlug input tok).data ≠ [] := by
    unfold baseSlug
    split
    · rw [String.data_append]
      simp
    · next h =>
      intro hc
      exact h (String.ext hc)
  obtain ⟨s, hs⟩ := Option.isSome_iff_exists.mp
    (probeLoop_isSome rows excl (baseSlug input tok))
  obtain ⟨i, _, hcand, _, _⟩ := probeLoop_some hs
  intro hc
  unfold generate_unique_slug at hc
  rw [hs, Option.getD_some, hcand] at hc
  exact slugCandidate_data_ne_nil hbne (congrArg String.data hc)

/-- C3: when the input text has no alphanumeric character (so
normalization is empty), the generator falls back to the pseudo-random
`card-`-prefixed base and still returns a non-empty slug consisting only
of `[a-z0-9-]` characters, with no leading and no trailing hyphen. -/
theorem fallback_slug_wellformed (rows : List Row) (input tok : String)
    (excl : Option Nat)
    (hin : ∀ c ∈ input.data, isSlugAlnum c = false)
    (htne : tok.data ≠ [])
    (htok : ∀ c ∈ tok.data, isHexLowerChar c = true) :
    generate_unique_slug rows input excl tok ≠ "" ∧
      slugCharsOnly (generate_unique_slug rows input excl tok).data ∧
      (∀ c, (generate_unique_slug rows input excl tok).data.head? = some c → c ≠ '-') ∧
      (∀ c, (generate_unique_slug rows input excl tok).data.getLast? = some c →
        c ≠ '-') := by
  have hb : baseSlug input tok = "card-" ++ tok := by
    unfold baseSlug
    rw [normalize_empty hin, if_pos rfl]
  obtain ⟨s, hs⟩ := Option.isSome_iff_exists.mp
    (probeLoop_isSome rows excl (baseSlug input tok))
  obtain ⟨i, _, hcand, _, _⟩ := probeLoop_some hs
  have hgen : generate_unique_slug rows input excl tok =
      slugCandidate ("card-" ++ tok) (0 + i) := by
    unfold generate_unique_slug
    rw [hs, Option.getD_some, hcand, hb]
  have hbase_chars : slugCharsOnly ("card-" ++ tok).data := by
    intro c hc
    rw [String.data_append] at hc
    rcases List.mem_append.mp hc with h | h
    · have hl : c ∈ ['c', 'a', 'r', 'd', '-'] := h
      fin_cases hl <;> decide
    · exact hex_is_slugChar (htok c h)
  have hbase_ne : ("card-" ++ tok).data ≠ [] := by
    rw [String.data_append]
    simp
  have hbase_head : ("card-" ++ tok).data.head? = some 'c' := by
    rw [String.data_append]
    rfl
  have hbase_last : ∀ c, ("card-" ++ tok).data.getLast? = some c → c ≠ '-' := by
    intro c hc
    rw [String.data_append, List.getLast?_append_of_ne_nil _ htne] at hc
    exact hex_ne_hyphen (htok c (List.mem_of_getLast?_eq_some hc))
  rw [hgen]
  refine ⟨?_, ?_, ?_, ?_⟩
  · intro hc
    exact slugCandidate_data_ne_nil hbase_ne (congrArg String.data hc)
  · exact slugCandidate_chars hbase_chars
  · intro c hc
    rw [slugCandidate_head_eq hbase_ne, hbase_head] at hc
    injection hc with hc
    rw [← hc]
    decide
  · intro c hc
    exact slugCandidate_last_not_hyphen hbase_last hc

theorem fallback_slug_wellformed_witness :
    (∀ c ∈ ("!!!" : String).data, isSlugAlnum c = false) ∧
      ("deadbeef" : String).data ≠ [] ∧
      (∀ c ∈ ("deadbeef" : String).data, isHexLowerChar c = true) ∧
      (generate_unique_slug [] "!!!" none "deadbeef" ≠ "" ∧
        slugCharsOnly (generate_unique_slug [] "!!!" none "deadbeef").data ∧
        (∀ c, (generate_unique_slug [] "!!!" none "deadbeef").data.head? = some c →
          c ≠ '-') ∧
        (∀ c, (generate_unique_slug [] "!!!" none "deadbeef").data.getLast? = some c →
          c ≠ '-')) :=
  ⟨by decide, by decide, by decide,
    fallback_slug_wellformed [] "!!!" "deadbeef" none (by decide) (by decide) (by decide)⟩

end BCD
